import Mathlib

/-!
Shallow embedding of the Research_tools repository (bruno-vacorreia/Research_tools)
and proofs of the specification's claims about it.

Numeric functions from `research_tools/conversions.py`, `research_tools/math.py`
and `research_tools/constants.py` are embedded over the real numbers (the
idealisation under which the spec states its exact algebraic round-trip
properties).  Python exceptions are embedded as `Except PyError`.  The discrete
string/list functions are embedded as computable Lean functions.
-/

namespace ResearchTools

/-- Python exception values raised by the embedded functions. -/
inductive PyError where
  | zeroDivisionError (msg : String)
  | valueError (msg : String)
  | typeError (msg : String)
  deriving DecidableEq

/-- `constants.py`: the speed of light `c` (imported there from
`scipy.constants`), in m/s. -/
def c : ℝ := 299792458

/-- `conversions.py`, `lin2dB`: convert a linear value to decibels,
`10 * log10(value_lin)`. -/
noncomputable def lin2dB (value_lin : ℝ) : ℝ := 10 * Real.logb 10 value_lin

/-- `conversions.py`, `dB2lin`: convert decibels to a linear value,
`10 ** (value_dB / 10)`. -/
noncomputable def dB2lin (value_dB : ℝ) : ℝ := (10 : ℝ) ^ (value_dB / 10)

/-- `conversions.py`, `wavelength2frequency`: raises `ZeroDivisionError` on a
zero wavelength, `ValueError` on a negative one, and otherwise returns
`c / wavelength`. -/
noncomputable def wavelength2frequency (wavelength : ℝ) : Except PyError ℝ :=
  if wavelength = 0 then .error (.zeroDivisionError "Wavelength cannot be zero")
  else if wavelength < 0 then .error (.valueError "Wavelength cannot be negative")
  else .ok (c / wavelength)

/-- `conversions.py`, `frequency2wavelength`: raises `ZeroDivisionError` on a
zero frequency, `ValueError` on a negative one, and otherwise returns
`c / freq`. -/
noncomputable def frequency2wavelength (freq : ℝ) : Except PyError ℝ :=
  if freq = 0 then .error (.zeroDivisionError "Frequency cannot be zero")
  else if freq < 0 then .error (.valueError "Frequency cannot be negative")
  else .ok (c / freq)

/-- `math.py`, `snr_dB_sum`: combine SNR values given in dB in the power
domain: `lin2dB(1 / sum(1 / dB2lin(arg) for arg in args))`. -/
noncomputable def snr_dB_sum (args : List ℝ) : ℝ :=
  lin2dB (1 / ((args.map (fun arg => 1 / dB2lin arg)).sum))

/-- `tools/parallelization.py`, `CpuParallel.run_parallelization`: each
argument is submitted to the pool in order and its future recorded in
`future_list` (the outcome of the task for argument `arg` is modelled as
`function arg : Except PyError β`); then the futures are drained in submission
order, appending `future.result()` on success and printing (and dropping) the
exception on failure. -/
def run_parallelization {α β : Type} (function : α → Except PyError β)
    (args : List α) : List β :=
  let future_list := args.map function
  future_list.foldl
    (fun results future =>
      match future with
      | .ok result => results ++ [result]
      | .error _ => results)
    []

/-- A concrete task used to exercise `run_parallelization`: fails on the
input 1 and otherwise returns its successor. -/
def demo_task (n : ℤ) : Except PyError ℤ :=
  if n = 1 then .error (.valueError "boom") else .ok (n + 1)

/-- `tools/parallelization.py`, `CpuParallel.set_num_cores`, on an `int`
argument (the `float` branch that rounds first does not apply to ints): when
the request exceeds `cpu_count()` only a notice is printed and the stored
`_NUM_CORES` is left unchanged; otherwise the stored count becomes the
request. -/
def set_num_cores (cpu_count NUM_CORES num_cores : ℤ) : ℤ :=
  if num_cores > cpu_count then NUM_CORES else num_cores

/-- `tools/parallelization.py`, `CpuParallel.get_num_cores`: return the stored
`_NUM_CORES`. -/
def get_num_cores (NUM_CORES : ℤ) : ℤ := NUM_CORES

/-- The codec branches of `in_out.py` `load`/`save`. -/
inductive Codec where
  | json | csv | mat | npy | excel | txt | pickle
  deriving DecidableEq

/-- The file suffixes `load` and `save` recognise. -/
def recognized_suffixes : List String :=
  [".json", ".csv", ".mat", ".npy", ".npz", ".xlsx", ".xls", ".ods", ".txt", ".pickle"]

/-- Which codec each recognised suffix dispatches to. -/
def suffix_codec_table : List (String × Codec) :=
  [(".json", .json), (".csv", .csv), (".mat", .mat), (".npy", .npy), (".npz", .npy),
   (".xlsx", .excel), (".xls", .excel), (".ods", .excel), (".txt", .txt),
   (".pickle", .pickle)]

/-- `in_out.py`, `load`: the `file_path.suffix` dispatch chain.  A recognised
suffix selects the matching codec branch; any other suffix falls through to
`raise TypeError(...)` before any file is opened. -/
def load_dispatch (suffix : String) : Except PyError Codec :=
  if suffix ∈ [".json"] then .ok .json
  else if suffix ∈ [".csv"] then .ok .csv
  else if suffix ∈ [".mat"] then .ok .mat
  else if suffix ∈ [".npy", ".npz"] then .ok .npy
  else if suffix ∈ [".xlsx", ".xls", ".ods"] then .ok .excel
  else if suffix ∈ [".txt"] then .ok .txt
  else if suffix ∈ [".pickle"] then .ok .pickle
  else .error (.typeError
    ("Load function not implemented for \"" ++ suffix ++ "\" type"))

/-- `in_out.py`, `save`: the `file_path.suffix` dispatch chain, identical to
`load`'s but raising the save-specific `TypeError` message. -/
def save_dispatch (suffix : String) : Except PyError Codec :=
  if suffix ∈ [".json"] then .ok .json
  else if suffix ∈ [".csv"] then .ok .csv
  else if suffix ∈ [".mat"] then .ok .mat
  else if suffix ∈ [".npy", ".npz"] then .ok .npy
  else if suffix ∈ [".xlsx", ".xls", ".ods"] then .ok .excel
  else if suffix ∈ [".txt"] then .ok .txt
  else if suffix ∈ [".pickle"] then .ok .pickle
  else .error (.typeError
    ("Save function not implemented for \"" ++ suffix ++ "\" type"))

/-- A decoded JSON value as produced by `json.load`. -/
inductive JValue where
  | str (s : String)
  | bool (b : Bool)
  | num (q : ℚ)
  | null
  | arr (elems : List JValue)
  | obj (members : List (String × JValue))

/-- `in_out.py`, `load`, `.json` branch, loop body: a top-level value equal to
the string 'true' becomes the boolean `True`, one equal to 'false' becomes
`False`, and any other value is kept as decoded. -/
def fix_top_value : JValue → JValue
  | .str s =>
      if s = "true" then .bool true
      else if s = "false" then .bool false
      else .str s
  | v => v

/-- `in_out.py`, `load`, `.json` branch: the decoded top-level dictionary
(modelled as an association list, preserving insertion order) after the
`for key, value in data.items()` post-processing loop. -/
def load_json_postprocess (data : List (String × JValue)) : List (String × JValue) :=
  data.map (fun kv => (kv.1, fix_top_value kv.2))

/-- The pandas integer dtypes `to_numeric` can downcast an int64 column to. -/
inductive IntType where
  | int8 | int16 | int32 | int64 | uint8 | uint16 | uint32 | uint64
  deriving DecidableEq

/-- The pandas float dtypes involved in the `downcast='float'` step. -/
inductive FloatType where
  | float32 | float64
  deriving DecidableEq

/-- A dataframe column: its dtype together with its stored values.  Object
and category columns hold strings, integer columns integers, float columns
(idealised) rationals. -/
inductive ColData where
  | objCol (values : List String)
  | catCol (values : List String)
  | intCol (t : IntType) (values : List ℤ)
  | floatCol (t : FloatType) (values : List ℚ)

/-- A cell value, independent of the storage dtype of its column. -/
inductive CellValue where
  | strV (s : String)
  | intV (n : ℤ)
  | floatV (q : ℚ)

/-- The values stored in a column, forgetting the storage dtype. -/
def colValues : ColData → List CellValue
  | .objCol vs => vs.map .strV
  | .catCol vs => vs.map .strV
  | .intCol _ vs => vs.map .intV
  | .floatCol _ vs => vs.map .floatV

/-- `utils.py`: `FIXED_PERCENTAGE_CATEGORY = 0.1`. -/
def FIXED_PERCENTAGE_CATEGORY : ℚ := 1 / 10

/-- `describe()['freq']` of an object column: the number of occurrences of its
most frequent value. -/
def mode_freq (values : List String) : ℕ :=
  (values.map (fun v => values.count v)).foldr max 0

/-- `.min()` of an integer column (the value is irrelevant for an empty
column: no value exists to be changed). -/
def series_min (values : List ℤ) : ℤ :=
  match values with
  | [] => 0
  | v :: rest => rest.foldl min v

/-- `.max()` of an integer column. -/
def series_max (values : List ℤ) : ℤ :=
  match values with
  | [] => 0
  | v :: rest => rest.foldl max v

/-- pandas `to_numeric(column, downcast='signed')` on an int64 column: the
smallest signed dtype whose range contains every value. -/
def downcast_signed (values : List ℤ) : IntType :=
  if -(2 ^ 7) ≤ series_min values ∧ series_max values < 2 ^ 7 then .int8
  else if -(2 ^ 15) ≤ series_min values ∧ series_max values < 2 ^ 15 then .int16
  else if -(2 ^ 31) ≤ series_min values ∧ series_max values < 2 ^ 31 then .int32
  else .int64

/-- pandas `to_numeric(column, downcast='unsigned')` on an int64 column with
non-negative minimum: the smallest unsigned dtype containing every value. -/
def downcast_unsigned (values : List ℤ) : IntType :=
  if series_max values < 2 ^ 8 then .uint8
  else if series_max values < 2 ^ 16 then .uint16
  else if series_max values < 2 ^ 32 then .uint32
  else .uint64

/-- Round a rational to the nearest integer, ties to the even integer (the
rounding direction IEEE-754 binary arithmetic uses). -/
def rnd_half_even (q : ℚ) : ℤ :=
  if q - ⌊q⌋ < 1 / 2 then ⌊q⌋
  else if 1 / 2 < q - ⌊q⌋ then ⌊q⌋ + 1
  else if ⌊q⌋ % 2 = 0 then ⌊q⌋ else ⌊q⌋ + 1

/-- The binade exponent `⌊log2 x⌋` of a positive magnitude `x ≥ 2^(-149)`,
computed through the integer `⌊x * 2^149⌋` (a magnitude below `2^(-149)`
yields `-149`, which the caller treats as subnormal anyway). -/
def f32_exp (x : ℚ) : ℤ := (Nat.log2 (⌊x * 2 ^ (149 : ℕ)⌋).toNat : ℤ) - 149

/-- The exponent of the spacing between neighbouring binary32 floats at
magnitude `x`: `2^(-149)` in the subnormal range, `2^(e-23)` inside the
binade of a normal number (capped at the top binade `e = 127`). -/
def f32_ulp (x : ℚ) : ℤ :=
  if f32_exp x < -126 then -149 else min (f32_exp x) 127 - 23

/-- Round a positive magnitude onto the binary32 grid, nearest, ties to
even. -/
def f32_abs_round (x : ℚ) : ℚ :=
  (rnd_half_even (x / 2 ^ f32_ulp x) : ℚ) * 2 ^ f32_ulp x

/-- IEEE-754 binary32 rounding (round to nearest, ties to even) of a real
(rational) value: the exact value numpy stores when casting float64 data to
float32.  `none` models overflow to an infinity (a magnitude rounding to
`2^128` or beyond). -/
def round_float32 (q : ℚ) : Option ℚ :=
  if q = 0 then some 0
  else if (2 : ℚ) ^ (128 : ℤ) ≤ f32_abs_round |q| then none
  else if 0 < q then some (f32_abs_round |q|)
  else some (-(f32_abs_round |q|))

/-- `np.allclose(new, old, rtol=0, atol=atol)` element-wise between the cast
column and the original column; `False` as soon as a cast overflowed (an
infinity is never close).  The model has no NaN, so `equal_nan` is moot. -/
def allclose_atol (atol : ℚ) : List (Option ℚ) → List ℚ → Bool
  | [], [] => true
  | [], _ :: _ => false
  | _ :: _, [] => false
  | none :: _, _ :: _ => false
  | some w :: ws, v :: vs => decide (|w - v| ≤ atol) && allclose_atol atol ws vs

/-- `utils.py`, `reduce_df_size`, effect on one column.  Object columns whose
most-frequent-value ratio exceeds `FIXED_PERCENTAGE_CATEGORY` become category
columns; int64 columns are downcast signed or unsigned depending on the sign
of their minimum; for a float64 column, pandas `to_numeric(downcast='float')`
computes `column.astype(float32)` — rounding every value to binary32 — and
keeps the **rounded** column exactly when `np.allclose(new, old, rtol=0,
atol)` passes (`atol` is `np.allclose`'s default `1e-8` in older pandas and
the float32 size tolerance `5e-4` in pandas ≥ 2.0, so it is a parameter
here).  All other dtypes are untouched. -/
def reduce_column (atol : ℚ) : ColData → ColData
  | .objCol vs =>
      if (mode_freq vs : ℚ) / (vs.length : ℚ) > FIXED_PERCENTAGE_CATEGORY
      then .catCol vs else .objCol vs
  | .catCol vs => .catCol vs
  | .intCol t vs =>
      if t = .int64 then
        (if series_min vs < 0 then .intCol (downcast_signed vs) vs
         else .intCol (downcast_unsigned vs) vs)
      else .intCol t vs
  | .floatCol t vs =>
      if t = .float64 then
        (if allclose_atol atol (vs.map round_float32) vs then
          .floatCol .float32 ((vs.map round_float32).map (fun c => c.getD 0))
         else .floatCol .float64 vs)
      else .floatCol t vs

/-- `utils.py`, `reduce_df_size`: apply the three dtype-reduction loops to a
dataframe, modelled as a list of named columns. -/
def reduce_df_size (atol : ℚ)
    (input_df : List (String × ColData)) : List (String × ColData) :=
  input_df.map (fun col => (col.1, reduce_column atol col.2))

/-- The value of a digit character as read by Python's `int(s, base)` for
bases up to 16 (characters outside this set do not occur in valid inputs). -/
def char_val (ch : Char) : ℕ :=
  if ch = '0' then 0 else if ch = '1' then 1 else if ch = '2' then 2
  else if ch = '3' then 3 else if ch = '4' then 4 else if ch = '5' then 5
  else if ch = '6' then 6 else if ch = '7' then 7 else if ch = '8' then 8
  else if ch = '9' then 9
  else if ch = 'a' ∨ ch = 'A' then 10 else if ch = 'b' ∨ ch = 'B' then 11
  else if ch = 'c' ∨ ch = 'C' then 12 else if ch = 'd' ∨ ch = 'D' then 13
  else if ch = 'e' ∨ ch = 'E' then 14 else if ch = 'f' ∨ ch = 'F' then 15
  else 0

/-- Python `int(s, base)` on a string of valid digits. -/
def int_of_str (base : ℕ) (s : String) : ℕ :=
  s.data.foldl (fun acc ch => base * acc + char_val ch) 0

/-- Little-endian base-`base` digits of the second argument, with the first
argument as explicit recursion fuel (any fuel ≥ the number suffices). -/
def to_digits_fuel (base : ℕ) : ℕ → ℕ → List ℕ
  | 0, _ => []
  | _ + 1, 0 => []
  | fuel + 1, n + 1 => ((n + 1) % base) :: to_digits_fuel base fuel ((n + 1) / base)

/-- Little-endian base-`base` digits of `n` (no leading zeros; `[]` for 0). -/
def nat_digits (base n : ℕ) : List ℕ := to_digits_fuel base n n

/-- Python `hex(n)[2:]` (base 16) and `bin(n)[2:]` (base 2): the base-`base`
representation of `n`, lowercase and without leading zeros ("0" for 0). -/
def str_of_int (base n : ℕ) : String :=
  if n = 0 then "0"
  else String.mk (((nat_digits base n).map Nat.digitChar).reverse)

/-- Python `str.zfill(width)` on an unsigned digit string: left-pad with '0'
to `width`; a string at least `width` long is returned unchanged. -/
def zfill (s : String) (width : ℕ) : String :=
  if width ≤ s.length then s
  else String.mk (List.replicate (width - s.length) '0') ++ s

/-- `conversions.py`, `binary_to_hex`: `int(binary_str, 2)`, then `hex(..)[2:]`,
then `zfill(len(binary_str) // 4)` when `same_length` is requested. -/
def binary_to_hex (binary_str : String) (same_length : Bool := true) : String :=
  let decimal := int_of_str 2 binary_str
  let hex_str := str_of_int 16 decimal
  if same_length then zfill hex_str (binary_str.length / 4) else hex_str

/-- `conversions.py`, `hex_to_binary`: `int(hex_str, 16)`, then `bin(..)[2:]`,
then `zfill(len(hex_str) * 4)` when `same_length` is requested. -/
def hex_to_binary (hex_str : String) (same_length : Bool := true) : String :=
  let decimal := int_of_str 16 hex_str
  let binary_str := str_of_int 2 decimal
  if same_length then zfill binary_str (hex_str.length * 4) else binary_str

/-- A Python binary string: nonempty and made of the digits '0' and '1'. -/
def is_binary_str (s : String) : Bool :=
  decide (s.length ≠ 0) && s.data.all (fun ch => ch = '0' || ch = '1')

end ResearchTools

namespace ResearchTools

/-- C1: for every x > 0, `dB2lin (lin2dB x) = x`: composing
`lin2dB(x) = 10*log10(x)` with `dB2lin(x) = 10**(x/10)` returns the original
positive input. -/
theorem dB2lin_lin2dB_roundtrip (x : ℝ) (hx : 0 < x) : dB2lin (lin2dB x) = x := by
  unfold dB2lin lin2dB
  have h : (10 * Real.logb 10 x) / 10 = Real.logb 10 x := by ring
  rw [h]
  exact Real.rpow_logb (by norm_num) (by norm_num) hx

/-- Witness for C1 at the concrete input x = 2. -/
theorem dB2lin_lin2dB_roundtrip_witness :
    (0 : ℝ) < 2 ∧ dB2lin (lin2dB 2) = 2 :=
  ⟨by norm_num, dB2lin_lin2dB_roundtrip 2 (by norm_num)⟩

/-- C2: `wavelength2frequency` and `frequency2wavelength` raise an exception
(are `.error`, so no conversion result is produced) for every input that is
zero or negative, and for every strictly positive input return `c` divided by
the input without raising. -/
theorem wavelength_frequency_error_handling (x : ℝ) :
    (x ≤ 0 →
      (∃ e, wavelength2frequency x = .error e) ∧
      (∃ e, frequency2wavelength x = .error e)) ∧
    (0 < x →
      wavelength2frequency x = .ok (c / x) ∧
      frequency2wavelength x = .ok (c / x)) := by
  constructor
  · intro hx
    unfold wavelength2frequency frequency2wavelength
    rcases eq_or_lt_of_le hx with h0 | hneg
    · rw [if_pos h0, if_pos h0]
      exact ⟨⟨_, rfl⟩, ⟨_, rfl⟩⟩
    · rw [if_neg (ne_of_lt hneg), if_pos hneg, if_neg (ne_of_lt hneg), if_pos hneg]
      exact ⟨⟨_, rfl⟩, ⟨_, rfl⟩⟩
  · intro hx
    unfold wavelength2frequency frequency2wavelength
    rw [if_neg (ne_of_gt hx), if_neg (not_lt_of_gt hx),
      if_neg (ne_of_gt hx), if_neg (not_lt_of_gt hx)]
    exact ⟨rfl, rfl⟩

/-- Witness for C2 at the concrete inputs x = -1 (error branch) and x = 2
(success branch). -/
theorem wavelength_frequency_error_handling_witness :
    ((∃ e, wavelength2frequency (-1) = .error e) ∧
      (∃ e, frequency2wavelength (-1) = .error e)) ∧
    (wavelength2frequency 2 = .ok (c / 2) ∧
      frequency2wavelength 2 = .ok (c / 2)) :=
  ⟨(wavelength_frequency_error_handling (-1)).1 (by norm_num),
    (wavelength_frequency_error_handling 2).2 (by norm_num)⟩

/-- C7: for every f > 0, converting wavelength-to-frequency and then
frequency-to-wavelength returns the original value:
`frequency2wavelength (wavelength2frequency f) = f`. -/
theorem frequency_wavelength_roundtrip (f : ℝ) (hf : 0 < f) :
    (wavelength2frequency f).bind frequency2wavelength = .ok f := by
  have hc : (0 : ℝ) < c := by unfold c; norm_num
  have h1 : wavelength2frequency f = .ok (c / f) :=
    ((wavelength_frequency_error_handling f).2 hf).1
  have hcf : 0 < c / f := div_pos hc hf
  have h2 : frequency2wavelength (c / f) = .ok (c / (c / f)) :=
    ((wavelength_frequency_error_handling (c / f)).2 hcf).2
  rw [h1, Except.bind, h2, div_div_eq_mul_div, mul_comm, mul_div_assoc,
    div_self (ne_of_gt hc), mul_one]

/-- C6: for every n ≥ 1 and every SNR value s in dB, `snr_dB_sum` applied to
n copies of s returns `s - 10*log10(n)`: combining equal SNRs in the power
domain reduces the total SNR by `10*log10(n)`. -/
theorem snr_dB_sum_replicate (n : ℕ) (hn : 1 ≤ n) (s : ℝ) :
    snr_dB_sum (List.replicate n s) = s - 10 * Real.logb 10 n := by
  have hd : (0 : ℝ) < dB2lin s := Real.rpow_pos_of_pos (by norm_num) _
  have hn' : (0 : ℝ) < n := by exact_mod_cast hn
  unfold snr_dB_sum
  rw [List.map_replicate, List.sum_replicate, nsmul_eq_mul, mul_one_div,
    one_div_div, lin2dB, Real.logb_div (ne_of_gt hd) (ne_of_gt hn')]
  have hlog : Real.logb 10 (dB2lin s) = s / 10 := by
    unfold dB2lin
    exact Real.logb_rpow (by norm_num) (by norm_num)
  rw [hlog]
  ring

/-- Witness for C6 at the concrete inputs n = 2, s = 7. -/
theorem snr_dB_sum_replicate_witness :
    1 ≤ 2 ∧ snr_dB_sum (List.replicate 2 (7 : ℝ)) = 7 - 10 * Real.logb 10 2 :=
  ⟨by norm_num, snr_dB_sum_replicate 2 (by norm_num) 7⟩

/-- Witness for C7 at the concrete input f = 3. -/
theorem frequency_wavelength_roundtrip_witness :
    (0 : ℝ) < 3 ∧ (wavelength2frequency 3).bind frequency2wavelength = .ok 3 :=
  ⟨by norm_num, frequency_wavelength_roundtrip 3 (by norm_num)⟩

/-- Draining the future list appends exactly the successful results, in
order. -/
theorem foldl_results_eq_filterMap {β : Type} (l : List (Except PyError β))
    (acc : List β) :
    l.foldl
      (fun results future =>
        match future with
        | .ok result => results ++ [result]
        | .error _ => results)
      acc = acc ++ l.filterMap Except.toOption := by
  induction l generalizing acc with
  | nil => simp
  | cons head tail ih =>
    cases head with
    | ok r => simp [List.foldl_cons, ih, Except.toOption]
    | error e => simp [List.foldl_cons, ih, Except.toOption]

/-- A `filterMap` that drops at least one element is strictly shorter. -/
theorem length_filterMap_lt {γ β : Type} (g : γ → Option β) :
    ∀ l : List γ, (∃ x ∈ l, g x = none) → (l.filterMap g).length < l.length := by
  intro l
  induction l with
  | nil => rintro ⟨x, hx, -⟩; exact absurd hx (List.not_mem_nil x)
  | cons head tail ih =>
    rintro ⟨x, hx, hnone⟩
    rcases List.mem_cons.mp hx with rfl | hxt
    · rw [List.filterMap_cons_none hnone]
      exact Nat.lt_succ_of_le (List.length_filterMap_le g tail)
    · cases hg : g head with
      | none =>
        rw [List.filterMap_cons_none hg]
        exact Nat.lt_succ_of_le (List.length_filterMap_le g tail)
      | some b =>
        rw [List.filterMap_cons_some hg]
        simpa using Nat.succ_lt_succ (ih ⟨x, hxt, hnone⟩)

/-- C3: `run_parallelization function args` returns exactly the results of the
calls that complete without raising, in submission order (it equals the
`filterMap` of the successful outcomes over `args`); every call that raises
contributes no entry, so on partial failure the returned list is strictly
shorter than `args`. -/
theorem run_parallelization_spec {α β : Type} (function : α → Except PyError β)
    (args : List α) :
    run_parallelization function args =
      (args.map function).filterMap Except.toOption ∧
    ((∃ a ∈ args, ∃ e, function a = .error e) →
      (run_parallelization function args).length < args.length) := by
  have heq : run_parallelization function args =
      (args.map function).filterMap Except.toOption := by
    unfold run_parallelization
    rw [foldl_results_eq_filterMap]
    simp
  refine ⟨heq, ?_⟩
  rintro ⟨a, ha, e, he⟩
  rw [heq]
  have hlt := length_filterMap_lt (Except.toOption (ε := PyError) (α := β))
    (args.map function) ⟨function a, List.mem_map_of_mem function ha, by
      rw [he]; rfl⟩
  simpa using hlt

/-- Witness for C3: a concrete mixed run where the second of three tasks
raises, so the two successes are returned in order and the list is shorter. -/
theorem run_parallelization_spec_witness :
    run_parallelization demo_task [0, 1, 2] =
      ([0, 1, 2].map demo_task).filterMap Except.toOption ∧
    (run_parallelization demo_task [0, 1, 2]).length < ([0, 1, 2] : List ℤ).length :=
  ⟨(run_parallelization_spec demo_task [0, 1, 2]).1,
    (run_parallelization_spec demo_task [0, 1, 2]).2
      ⟨1, by simp, .valueError "boom", rfl⟩⟩

/-- C9: `set_num_cores` with an int strictly greater than the machine's
`cpu_count` leaves the stored worker count unchanged, so `get_num_cores`
returns the same value before and after; for an int between 1 and `cpu_count`
the stored count becomes exactly the requested value. -/
theorem set_num_cores_spec (cpu_count NUM_CORES num_cores : ℤ) :
    (num_cores > cpu_count →
      get_num_cores (set_num_cores cpu_count NUM_CORES num_cores) =
        get_num_cores NUM_CORES) ∧
    (1 ≤ num_cores → num_cores ≤ cpu_count →
      get_num_cores (set_num_cores cpu_count NUM_CORES num_cores) = num_cores) := by
  unfold get_num_cores set_num_cores
  constructor
  · intro h; rw [if_pos h]
  · intro _ h; rw [if_neg (not_lt_of_ge h)]

/-- Witness for C9 on a 4-core machine with 4 stored cores: requesting 9
leaves the count at 4, requesting 2 stores 2. -/
theorem set_num_cores_spec_witness :
    get_num_cores (set_num_cores 4 4 9) = get_num_cores 4 ∧
    get_num_cores (set_num_cores 4 4 2) = 2 :=
  ⟨(set_num_cores_spec 4 4 9).1 (by decide),
    (set_num_cores_spec 4 4 2).2 (by decide) (by decide)⟩

/-- C8: `load` and `save` dispatch on the file path's suffix: every recognised
suffix takes its matching codec branch, and any other suffix raises a
`TypeError` (so no codec is selected and no file is read or written). -/
theorem load_save_dispatch_spec (suffix : String) :
    (∀ p ∈ suffix_codec_table,
      load_dispatch p.1 = .ok p.2 ∧ save_dispatch p.1 = .ok p.2) ∧
    (suffix ∉ recognized_suffixes →
      (∃ msg, load_dispatch suffix = .error (.typeError msg)) ∧
      (∃ msg, save_dispatch suffix = .error (.typeError msg))) := by
  constructor
  · intro p hp
    fin_cases hp <;> exact ⟨rfl, rfl⟩
  · intro h
    simp only [recognized_suffixes, List.mem_cons, List.not_mem_nil, or_false,
      not_or] at h
    obtain ⟨h1, h2, h3, h4, h5, h6, h7, h8, h9, h10⟩ := h
    unfold load_dispatch save_dispatch
    simp only [List.mem_cons, List.not_mem_nil, or_false,
      h1, h2, h3, h4, h5, h6, h7, h8, h9, h10, if_false, or_self, if_neg,
      not_false_eq_true]
    exact ⟨⟨_, rfl⟩, ⟨_, rfl⟩⟩

/-- Witness for C8 at the unrecognised suffix ".sql": both dispatchers raise
a TypeError. -/
theorem load_save_dispatch_spec_witness :
    (∃ msg, load_dispatch ".sql" = .error (.typeError msg)) ∧
    (∃ msg, save_dispatch ".sql" = .error (.typeError msg)) :=
  (load_save_dispatch_spec ".sql").2 (by decide)

/-- C10: loading a .json file post-processes the decoded dictionary entry by
entry: a top-level value equal to the string 'true' becomes `True`, one equal
to 'false' becomes `False`, and every other top-level value — including
nested objects and arrays, whose contents are left exactly as decoded — is
returned unchanged. -/
theorem load_json_bool_postprocess (data : List (String × JValue)) (i : ℕ)
    (kv : String × JValue) (h : data[i]? = some kv) :
    (load_json_postprocess data)[i]? = some (kv.1, fix_top_value kv.2) ∧
    fix_top_value (.str "true") = .bool true ∧
    fix_top_value (.str "false") = .bool false ∧
    (∀ s : String, s ≠ "true" → s ≠ "false" → fix_top_value (.str s) = .str s) ∧
    (∀ members, fix_top_value (.obj members) = .obj members) ∧
    (∀ elems, fix_top_value (.arr elems) = .arr elems) ∧
    (∀ q : ℚ, fix_top_value (.num q) = .num q) ∧
    (∀ b : Bool, fix_top_value (.bool b) = .bool b) ∧
    fix_top_value .null = .null := by
  refine ⟨?_, rfl, rfl, ?_, fun _ => rfl, fun _ => rfl, fun _ => rfl,
    fun _ => rfl, rfl⟩
  · unfold load_json_postprocess
    rw [List.getElem?_map, h, Option.map_some']
  · intro s hs1 hs2
    simp only [fix_top_value, if_neg hs1, if_neg hs2]

/-- Witness for C10 on the concrete dictionary [("a", "true")]: entry 0 is
rewritten to the boolean True. -/
theorem load_json_bool_postprocess_witness :
    (load_json_postprocess [("a", .str "true")])[0]? =
      some ("a", fix_top_value (.str "true")) :=
  (load_json_bool_postprocess [("a", .str "true")] 0 ("a", .str "true") rfl).1

/-- `String.length` unfolds to the length of the character list. -/
theorem string_length_data (s : String) : s.length = s.data.length := rfl

/-- Appending a literal character list to a string concatenates the data. -/
theorem mk_append_data (l : List Char) (s : String) :
    (String.mk l ++ s).data = l ++ s.data := by
  cases s
  rfl

/-- With enough fuel, `to_digits_fuel` computes `Nat.digits`. -/
theorem to_digits_fuel_eq (base : ℕ) (hb : 2 ≤ base) :
    ∀ fuel n, n ≤ fuel → to_digits_fuel base fuel n = Nat.digits base n := by
  intro fuel
  induction fuel with
  | zero =>
    intro n hn
    have : n = 0 := Nat.le_zero.mp hn
    subst this
    rw [Nat.digits_zero, to_digits_fuel]
  | succ fuel ih =>
    intro n hn
    match n with
    | 0 => rw [Nat.digits_zero, to_digits_fuel]
    | m + 1 =>
      rw [to_digits_fuel, Nat.digits_def' (by omega : 1 < base) (by omega : 0 < m + 1),
        ih ((m + 1) / base) (by
          have hdiv : (m + 1) / base < m + 1 :=
            Nat.div_lt_self (by omega) (by omega)
          omega)]

/-- `nat_digits` agrees with Mathlib's `Nat.digits` for bases ≥ 2. -/
theorem nat_digits_eq (base n : ℕ) (hb : 2 ≤ base) :
    nat_digits base n = Nat.digits base n :=
  to_digits_fuel_eq base hb n n le_rfl

/-- `char_val` inverts `Nat.digitChar` on digit values below 16. -/
theorem char_val_digitChar (d : ℕ) (hd : d < 16) :
    char_val (Nat.digitChar d) = d := by
  interval_cases d <;> rfl

/-- Parsing a list of digit characters is evaluating the digit values. -/
theorem foldl_digit_chars (base : ℕ) :
    ∀ ds : List ℕ, (∀ d ∈ ds, d < 16) → ∀ acc : ℕ,
      (ds.map Nat.digitChar).foldl (fun a ch => base * a + char_val ch) acc =
        ds.foldl (fun a d => base * a + d) acc := by
  intro ds
  induction ds with
  | nil => intro _ acc; rfl
  | cons d t ih =>
    intro hds acc
    rw [List.map_cons, List.foldl_cons, List.foldl_cons,
      char_val_digitChar d (hds d (List.mem_cons_self d t))]
    exact ih (fun x hx => hds x (List.mem_cons_of_mem d hx)) _

/-- Horner evaluation of the reversed digit list is `Nat.ofDigits`. -/
theorem foldl_reverse_eq_ofDigits (base : ℕ) :
    ∀ (l : List ℕ) (acc : ℕ),
      l.reverse.foldl (fun a d => base * a + d) acc =
        Nat.ofDigits base l + acc * base ^ l.length := by
  intro l
  induction l with
  | nil => intro acc; simp [Nat.ofDigits]
  | cons d t ih =>
    intro acc
    rw [List.reverse_cons, List.foldl_append, ih acc, List.foldl_cons,
      List.foldl_nil, Nat.ofDigits_cons, List.length_cons]
    ring

/-- Parsing the printed representation returns the number (value round-trip
of `hex(n)[2:]` / `bin(n)[2:]` against `int(s, base)`). -/
theorem int_of_str_str_of_int (base n : ℕ) (hb : 2 ≤ base) (hb16 : base ≤ 16) :
    int_of_str base (str_of_int base n) = n := by
  unfold str_of_int
  split
  · rename_i h
    subst h
    have hd : "0".data = ['0'] := rfl
    have hc : char_val '0' = 0 := rfl
    simp [int_of_str, hd, hc]
  · rename_i h0
    unfold int_of_str
    have hdata : (String.mk (((nat_digits base n).map Nat.digitChar).reverse)).data
        = ((nat_digits base n).map Nat.digitChar).reverse := rfl
    rw [hdata, nat_digits_eq base n hb, ← List.map_reverse,
      foldl_digit_chars base _
        (fun d hd => lt_of_lt_of_le
          (Nat.digits_lt_base (by omega) (List.mem_reverse.mp hd)) hb16) 0,
      foldl_reverse_eq_ofDigits, Nat.ofDigits_digits, Nat.zero_mul, Nat.add_zero]

/-- Leading zero padding keeps the parsed value: parsing ignores '0'
prefixes. -/
theorem int_of_str_zfill (base : ℕ) (s : String) (width : ℕ) :
    int_of_str base (zfill s width) = int_of_str base s := by
  unfold zfill
  split
  · rfl
  · unfold int_of_str
    rw [mk_append_data, List.foldl_append]
    have hzeros : ∀ k : ℕ,
        (List.replicate k '0').foldl (fun a ch => base * a + char_val ch) 0 = 0 := by
      intro k
      induction k with
      | zero => rfl
      | succ k ih =>
        rw [List.replicate_succ, List.foldl_cons]
        have hc : base * 0 + char_val '0' = 0 := by simp [char_val]
        rw [hc, ih]
    rw [hzeros]

/-- `zfill` pads to exactly `max s.length width` characters. -/
theorem zfill_length (s : String) (width : ℕ) :
    (zfill s width).length = max s.length width := by
  unfold zfill
  split
  · rename_i h
    rw [max_eq_left h]
  · rename_i h
    rw [string_length_data, mk_append_data, List.length_append,
      List.length_replicate, ← string_length_data]
    omega

/-- Parsing digits below the base is bounded by `base ^ length`. -/
theorem foldl_lt_pow (base : ℕ) :
    ∀ l : List Char, (∀ ch ∈ l, char_val ch < base) → ∀ acc : ℕ,
      l.foldl (fun a ch => base * a + char_val ch) acc <
        base ^ l.length * (acc + 1) := by
  intro l
  induction l with
  | nil =>
    intro _ acc
    rw [List.foldl_nil, List.length_nil, pow_zero, Nat.one_mul]
    exact Nat.lt_succ_self acc
  | cons ch t ih =>
    intro hl acc
    rw [List.foldl_cons]
    refine lt_of_lt_of_le
      (ih (fun x hx => hl x (List.mem_cons_of_mem ch hx)) (base * acc + char_val ch)) ?_
    have hch : char_val ch + 1 ≤ base := hl ch (List.mem_cons_self ch t)
    have hstep : base * acc + char_val ch + 1 ≤ base * (acc + 1) := by
      have := Nat.add_le_add_left hch (base * acc)
      calc base * acc + char_val ch + 1 = base * acc + (char_val ch + 1) := by ring
        _ ≤ base * acc + base := this
        _ = base * (acc + 1) := by ring
    calc base ^ t.length * (base * acc + char_val ch + 1)
        ≤ base ^ t.length * (base * (acc + 1)) :=
          Nat.mul_le_mul_left _ hstep
      _ = base ^ (ch :: t).length * (acc + 1) := by
          rw [List.length_cons, pow_succ]
          ring

/-- `int(s, base)` of a string of digits below the base is below
`base ^ len(s)`. -/
theorem int_of_str_lt (base : ℕ) (s : String)
    (hs : ∀ ch ∈ s.data, char_val ch < base) :
    int_of_str base s < base ^ s.length := by
  have h := foldl_lt_pow base s.data hs 0
  rw [Nat.zero_add, Nat.mul_one] at h
  unfold int_of_str
  rw [string_length_data]
  exact h

/-- The printed representation of `n < base ^ k` has at most `k` digits
(for `k ≥ 1`). -/
theorem str_of_int_length_le (base n k : ℕ) (hb : 2 ≤ base) (hk : 1 ≤ k)
    (hn : n < base ^ k) : (str_of_int base n).length ≤ k := by
  unfold str_of_int
  split
  · exact hk
  · rename_i h0
    rw [string_length_data]
    have hdata : (String.mk (((nat_digits base n).map Nat.digitChar).reverse)).data
        = ((nat_digits base n).map Nat.digitChar).reverse := rfl
    rw [hdata, List.length_reverse, List.length_map, nat_digits_eq base n hb,
      Nat.digits_len base n (by omega) h0]
    have := Nat.log_lt_of_lt_pow h0 hn
    omega

/-- C5 counterexample: the claim as stated fails at the binary string "1":
with `same_length=True` in both directions the final binary string is "0001",
which has 4 digits, not 1 (and the intermediate hex string "1" has 1 digit,
not `1 // 4 = 0`). -/
theorem binary_hex_roundtrip_counterexample :
    is_binary_str "1" = true ∧
    (hex_to_binary (binary_to_hex "1" true) true).length ≠ "1".length := by
  decide

/-- C5 (amended): for every binary string b, converting with `binary_to_hex`
and back with `hex_to_binary` (with `same_length=True` in both directions)
yields a string denoting the same integer value; and when additionally the
number of digits of b is a multiple of 4, the intermediate hex string has
exactly `len(b)//4` digits and the final binary string exactly `len(b)`
digits. -/
theorem binary_hex_roundtrip (b : String) (hb : is_binary_str b = true) :
    int_of_str 2 (hex_to_binary (binary_to_hex b true) true) = int_of_str 2 b ∧
    (4 ∣ b.length →
      (binary_to_hex b true).length = b.length / 4 ∧
      (hex_to_binary (binary_to_hex b true) true).length = b.length) := by
  have hb' : b.length ≠ 0 ∧ ∀ ch ∈ b.data, ch = '0' ∨ ch = '1' := by
    simpa [is_binary_str] using hb
  obtain ⟨hne, hdig⟩ := hb'
  have hchar : ∀ ch ∈ b.data, char_val ch < 2 := by
    intro ch hch
    rcases hdig ch hch with h | h <;> subst h <;> decide
  set n := int_of_str 2 b with hn
  have hb2h : binary_to_hex b true = zfill (str_of_int 16 n) (b.length / 4) := rfl
  have hval16 : int_of_str 16 (binary_to_hex b true) = n := by
    rw [hb2h, int_of_str_zfill, int_of_str_str_of_int 16 n (by norm_num) (by norm_num)]
  have hh2b : hex_to_binary (binary_to_hex b true) true =
      zfill (str_of_int 2 (int_of_str 16 (binary_to_hex b true)))
        ((binary_to_hex b true).length * 4) := rfl
  have hval2 : int_of_str 2 (hex_to_binary (binary_to_hex b true) true) = n := by
    rw [hh2b, hval16, int_of_str_zfill,
      int_of_str_str_of_int 2 n (by norm_num) (by norm_num)]
  refine ⟨hval2, ?_⟩
  rintro ⟨k, hk⟩
  have hk1 : 1 ≤ k := by omega
  have hnlt : n < 2 ^ b.length := int_of_str_lt 2 b hchar
  have hn16 : n < 16 ^ k := by
    have hpow : (2 : ℕ) ^ b.length = 16 ^ k := by
      rw [hk, pow_mul]
      norm_num
    omega
  have hhexlen : (str_of_int 16 n).length ≤ k :=
    str_of_int_length_le 16 n k (by norm_num) hk1 hn16
  have hdiv4 : b.length / 4 = k := by omega
  have hlen1 : (binary_to_hex b true).length = k := by
    rw [hb2h, zfill_length, hdiv4, max_eq_right hhexlen]
  have hbinlen : (str_of_int 2 n).length ≤ k * 4 := by
    apply str_of_int_length_le 2 n (k * 4) (by norm_num) (by omega)
    have hpow : (2 : ℕ) ^ (k * 4) = 2 ^ b.length := by rw [hk, Nat.mul_comm]
    omega
  constructor
  · rw [hlen1, hdiv4]
  · rw [hh2b, hval16, zfill_length, hlen1, max_eq_right hbinlen, hk]
    omega

/-- Witness for C5 (amended) at the binary string "10100101" (8 digits): the
round-trip runs through the hex string "a5" and back to "10100101". -/
theorem binary_hex_roundtrip_witness :
    int_of_str 2 (hex_to_binary (binary_to_hex "10100101" true) true) =
      int_of_str 2 "10100101" ∧
    (binary_to_hex "10100101" true).length = "10100101".length / 4 ∧
    (hex_to_binary (binary_to_hex "10100101" true) true).length =
      "10100101".length :=
  ⟨(binary_hex_roundtrip "10100101" (by decide)).1,
    ((binary_hex_roundtrip "10100101" (by decide)).2 (by decide)).1,
    ((binary_hex_roundtrip "10100101" (by decide)).2 (by decide)).2⟩

/-- The binade of 1/10: `2^(-4) ≤ 1/10 < 2^(-3)`, found through
`⌊(1/10)·2^149⌋`, a 146-bit integer. -/
theorem f32_exp_tenth : f32_exp (1 / 10 : ℚ) = -4 := by
  unfold f32_exp
  have hfloor : ⌊(1 / 10 : ℚ) * 2 ^ (149 : ℕ)⌋ =
      71362384635297994052914298472474756819137331 := by
    rw [Int.floor_eq_iff]
    constructor <;> norm_num
  rw [hfloor]
  have hlog : Nat.log2 71362384635297994052914298472474756819137331 = 145 := by
    rw [Nat.log2_eq_log_two]
    exact Nat.log_eq_of_pow_le_of_lt_pow (by norm_num) (by norm_num)
  have htn : Int.toNat 71362384635297994052914298472474756819137331 =
      71362384635297994052914298472474756819137331 := rfl
  rw [htn, hlog]
  norm_num

/-- The float32 rounding of 0.1: the ulp at 1/10 is `2^(-27)` and
`(1/10)·2^27 = 13421772.8` rounds up, giving `13421773/134217728`
(= 0.10000000149011612…, the value numpy stores). -/
theorem round_float32_tenth :
    round_float32 (1 / 10 : ℚ) = some (13421773 / 134217728 : ℚ) := by
  have hulp : f32_ulp (1 / 10 : ℚ) = -27 := by
    rw [f32_ulp, f32_exp_tenth]
    norm_num
  have habs : f32_abs_round (1 / 10 : ℚ) = 13421773 / 134217728 := by
    rw [f32_abs_round, hulp]
    have h2 : (2 : ℚ) ^ (-27 : ℤ) = 1 / 134217728 := by norm_num
    rw [h2]
    have hdiv : (1 / 10 : ℚ) / (1 / 134217728) = 67108864 / 5 := by norm_num
    rw [hdiv]
    have hfl : ⌊(67108864 / 5 : ℚ)⌋ = 13421772 := by
      rw [Int.floor_eq_iff]
      constructor <;> norm_num
    have hrnd : rnd_half_even (67108864 / 5 : ℚ) = 13421773 := by
      unfold rnd_half_even
      rw [hfl]
      norm_num
    rw [hrnd]
    norm_num
  unfold round_float32
  rw [if_neg (by norm_num : ¬(1 / 10 : ℚ) = 0),
    abs_of_pos (by norm_num : (0 : ℚ) < 1 / 10), habs,
    if_neg (by norm_num : ¬(2 : ℚ) ^ (128 : ℤ) ≤ 13421773 / 134217728),
    if_pos (by norm_num : (0 : ℚ) < 1 / 10)]

/-- The allclose guard at tolerance 1e-8 passes on the column [0.1]: the cast
differs from the original by 1/671088640 ≈ 1.49e-9. -/
theorem allclose_tenth :
    allclose_atol (1 / 100000000) ([(1 : ℚ) / 10].map round_float32)
      [(1 : ℚ) / 10] = true := by
  rw [List.map_cons, List.map_nil, round_float32_tenth]
  simp only [allclose_atol, Bool.and_eq_true, decide_eq_true_eq]
  refine ⟨?_, trivial⟩
  have habs : |(13421773 : ℚ) / 134217728 - 1 / 10| = 1 / 671088640 := by
    rw [abs_of_pos] <;> norm_num
  rw [habs]
  norm_num

/-- `reduce_column` downcasts the float64 column [0.1] to float32 and stores
the rounded value. -/
theorem reduce_column_tenth :
    reduce_column (1 / 100000000) (ColData.floatCol .float64 [1 / 10]) =
      ColData.floatCol .float32 [13421773 / 134217728] := by
  simp only [reduce_column]
  rw [if_pos trivial, if_pos allclose_tenth, List.map_cons, List.map_nil,
    round_float32_tenth]
  rfl

/-- C4 counterexample: `reduce_df_size` does change stored values.  At the
allclose tolerance 1e-8 (`np.allclose`'s default) the float64 column [0.1] is
downcast to float32 and its stored value becomes the float32 rounding
13421773/134217728 = 0.10000000149…, so the returned column is not
element-wise equal to the input column. -/
theorem reduce_df_size_changes_values :
    reduce_df_size (1 / 100000000) [("x", ColData.floatCol .float64 [1 / 10])] =
      [("x", ColData.floatCol .float32 [13421773 / 134217728])] ∧
    colValues (ColData.floatCol .float32 [13421773 / 134217728]) ≠
      colValues (ColData.floatCol .float64 [1 / 10]) := by
  constructor
  · unfold reduce_df_size
    rw [List.map_cons, List.map_nil, reduce_column_tenth]
  · intro h
    simp only [colValues, List.map_cons, List.map_nil, List.cons.injEq,
      and_true, CellValue.floatV.injEq] at h
    norm_num at h

/-- The allclose guard implies that every cast succeeded and landed within
the tolerance, pointwise along the column. -/
theorem allclose_atol_forall2 (atol : ℚ) :
    ∀ vs : List ℚ, allclose_atol atol (vs.map round_float32) vs = true →
      List.Forall₂ (fun w v => round_float32 v = some w ∧ |w - v| ≤ atol)
        ((vs.map round_float32).map (fun c => c.getD 0)) vs := by
  intro vs
  induction vs with
  | nil => intro _; exact List.Forall₂.nil
  | cons v t ih =>
    intro h
    rw [List.map_cons] at h
    cases hf : round_float32 v with
    | none =>
      rw [hf] at h
      simp only [allclose_atol] at h
      exact (Bool.false_ne_true h).elim
    | some w =>
      rw [hf] at h
      simp only [allclose_atol, Bool.and_eq_true, decide_eq_true_eq] at h
      rw [List.map_cons, hf, List.map_cons]
      exact List.Forall₂.cons ⟨hf, h.1⟩ (ih h.2)

/-- Object, category, integer and float32 columns keep their values: only
the float64 downcast can rewrite stored data. -/
theorem colValues_reduce_column_of_ne (atol : ℚ) (col : ColData)
    (h : ∀ vs, col ≠ ColData.floatCol .float64 vs) :
    colValues (reduce_column atol col) = colValues col := by
  cases col with
  | objCol vs =>
    simp only [reduce_column]
    split <;> rfl
  | catCol vs => simp only [reduce_column]
  | intCol t vs =>
    simp only [reduce_column]
    split
    · split <;> rfl
    · rfl
  | floatCol t vs =>
    cases t with
    | float64 => exact absurd rfl (h vs)
    | float32 =>
      simp only [reduce_column]
      rw [if_neg (fun hc => FloatType.noConfusion hc)]

/-- C4 (amended): `reduce_df_size` preserves column names and never changes
the values of object, category, integer or float32 columns; a float64 column
is either left unchanged or downcast to float32, in which case every stored
value is replaced by the float32 rounding of the original value, each within
the allclose tolerance `atol` of the original. -/
theorem reduce_df_size_value_spec (atol : ℚ)
    (input_df : List (String × ColData)) :
    (reduce_df_size atol input_df).map Prod.fst = input_df.map Prod.fst ∧
    (∀ (i : ℕ) (name : String) (col : ColData),
      input_df[i]? = some (name, col) →
      (∀ vs, col ≠ ColData.floatCol .float64 vs) →
      (reduce_df_size atol input_df)[i]? = some (name, reduce_column atol col) ∧
      colValues (reduce_column atol col) = colValues col) ∧
    (∀ (i : ℕ) (name : String) (vs : List ℚ),
      input_df[i]? = some (name, ColData.floatCol .float64 vs) →
      (reduce_df_size atol input_df)[i]? =
        some (name, reduce_column atol (ColData.floatCol .float64 vs)) ∧
      (reduce_column atol (ColData.floatCol .float64 vs) =
          ColData.floatCol .float64 vs ∨
        ∃ ws, reduce_column atol (ColData.floatCol .float64 vs) =
            ColData.floatCol .float32 ws ∧
          List.Forall₂ (fun w v => round_float32 v = some w ∧ |w - v| ≤ atol)
            ws vs)) := by
  refine ⟨?_, ?_, ?_⟩
  · unfold reduce_df_size
    rw [List.map_map]
    rfl
  · intro i name col hi hne
    refine ⟨?_, colValues_reduce_column_of_ne atol col hne⟩
    unfold reduce_df_size
    rw [List.getElem?_map, hi, Option.map_some']
  · intro i name vs hi
    constructor
    · unfold reduce_df_size
      rw [List.getElem?_map, hi, Option.map_some']
    · simp only [reduce_column]
      rw [if_pos trivial]
      by_cases hall : allclose_atol atol (vs.map round_float32) vs = true
      · right
        exact ⟨_, by rw [if_pos hall], allclose_atol_forall2 atol vs hall⟩
      · left
        rw [if_neg hall]

/-- Witness for C4 (amended) on the one-column dataframe [("x", float64
[0.1])] at tolerance 1e-8: names are preserved and the float64 clause is
instantiated at index 0. -/
theorem reduce_df_size_value_spec_witness :
    (reduce_df_size (1 / 100000000)
        [("x", ColData.floatCol .float64 [1 / 10])]).map Prod.fst =
      [("x", ColData.floatCol .float64 [1 / 10])].map Prod.fst ∧
    ((reduce_df_size (1 / 100000000)
        [("x", ColData.floatCol .float64 [1 / 10])])[0]? =
      some ("x", reduce_column (1 / 100000000)
        (ColData.floatCol .float64 [1 / 10])) ∧
      (reduce_column (1 / 100000000) (ColData.floatCol .float64 [1 / 10]) =
          ColData.floatCol .float64 [1 / 10] ∨
        ∃ ws, reduce_column (1 / 100000000) (ColData.floatCol .float64 [1 / 10]) =
            ColData.floatCol .float32 ws ∧
          List.Forall₂
            (fun w v => round_float32 v = some w ∧ |w - v| ≤ 1 / 100000000)
            ws [1 / 10])) :=
  ⟨(reduce_df_size_value_spec (1 / 100000000)
      [("x", ColData.floatCol .float64 [1 / 10])]).1,
    (reduce_df_size_value_spec (1 / 100000000)
      [("x", ColData.floatCol .float64 [1 / 10])]).2.2 0 "x" [1 / 10] rfl⟩

end ResearchTools
